import Mathlib

/-
Verification of the document-search core of this repository:
the text chunker (`services/pdf_processor.py`), the vector index
(`services/vector_store.py`) and the hybrid ranker
(`services/search_service.py` together with `config.py`).

Strings are modelled as `List Char`, Python floats as `ℚ` (the numeric
values involved are exact decimals), and the imperative methods as pure
functions.  Where a method mutates `self` and can raise, it is modelled as
a function returning the state at the moment of return or raise, paired
with an `Except`-style outcome, so that "does not corrupt existing state"
is a real statement and not a vacuity of the functional style.
-/


namespace DocSearch

/-! ## Python text primitives on `List Char` -/

/-- Python whitespace characters (the ASCII fragment relevant to
`str.strip`). -/
def isPyWs (c : Char) : Bool :=
  c = ' ' || c = '\t' || c = '\n' || c = '\r' || c = '\x0b' || c = '\x0c'

/-- Python `str.strip()`: drop whitespace from both ends. -/
def pyStrip (l : List Char) : List Char :=
  ((l.dropWhile isPyWs).reverse.dropWhile isPyWs).reverse

/-- Does `pat` occur in `text` starting at position `i`? -/
def matchesAt (text pat : List Char) (i : Nat) : Bool :=
  (text.drop i).take pat.length == pat

/-- Python `text.rfind(pat, 0, e)`: the highest start position of an
occurrence of `pat` lying entirely inside `text[0:e]`, or `-1` when there
is none. -/
def rfind (text pat : List Char) (e : Nat) : Int :=
  match ((List.range (e + 1)).filter
      (fun i => decide (i + pat.length ≤ e) && matchesAt text pat i)).getLast? with
  | some i => (i : Int)
  | none => -1

/-! ## `PDFProcessor._find_break_point` -/

/-- One step of the sentence-terminator scan of `_find_break_point`:
`if pos > best_break: best_break = pos + len(delimiter)` (every delimiter
has length 2). -/
def sentenceStep (best pos : Int) : Int := if pos > best then pos + 2 else best

/-- The sentence-terminator scan of `_find_break_point`: starting from
`best_break = -1`, fold `sentenceStep` over the raw `rfind` positions of
the fixed delimiter list `['. ', '! ', '? ']` in source order (the loop is
unrolled; note the raw position is compared against a stored best that
already includes the delimiter length of an earlier hit). -/
def sentenceBest (text : List Char) (target : Nat) : Int :=
  sentenceStep (sentenceStep (sentenceStep (-1)
    (rfind text ['.', ' '] target)) (rfind text ['!', ' '] target))
    (rfind text ['?', ' '] target)

/-- `PDFProcessor._find_break_point`.  The source compares positions with
`target_size * 0.7` in floating point; the factor is modelled exactly as
the rational 7/10 (`10 * pos > 7 * target`), which agrees with the
binary64 comparison for the sizes exercised here. -/
def findBreakPoint (text : List Char) (target : Nat) : Nat :=
  if text.length ≤ target then text.length
  else
    let paraBreak := rfind text ['\n', '\n'] target
    if 10 * paraBreak > 7 * (target : Int) then paraBreak.toNat
    else
      let bestBreak := sentenceBest text target
      if 10 * bestBreak > 7 * (target : Int) then bestBreak.toNat
      else
        let wordBreak := rfind text [' '] target
        if 0 < wordBreak then wordBreak.toNat else target

/-! ## `PDFProcessor.chunk_text` -/

/-- A page handed to the chunker (an entry of `extract_text_from_pdf`'s
`pages` list). -/
structure PageIn where
  page_number : Nat
  text : List Char
deriving DecidableEq, Repr

/-- The `DocumentChunk` records produced by `chunk_text`. -/
structure DocumentChunk where
  document_id : Nat
  chunk_index : Nat
  page_numbers : List Nat
  text_content : List Char
  chunk_size : Nat
deriving DecidableEq, Repr

/-- The page-list collapse of `chunk_text`'s cut loop:
`if current_pages: current_pages = [current_pages[-1]]`. -/
def collapseLast (pgs : List Nat) : List Nat :=
  match pgs.getLast? with
  | some p => [p]
  | none => pgs

/-- The combined page-loop/cut-loop of `PDFProcessor.chunk_text`, with
explicit fuel.  The Python `while len(current_chunk) >= self.chunk_size`
loop is not structurally decreasing (the slide
`current_chunk[max(0, break_point - overlap):]` need not shrink the
buffer), so the recursion is bounded by `fuel` and yields `none` when the
bound is hit.  For `cs ≥ 1` each recursive call performs exactly the next
step of the Python code: cut a chunk while the buffer is long enough,
otherwise append the next page, otherwise emit the final chunk. -/
def chunkGo (docId cs ov : Nat) :
    Nat → List PageIn → List Char → List Nat → Nat → List DocumentChunk →
    Option (List DocumentChunk)
  | 0, _, _, _, _, _ => none
  | fuel + 1, pages, buf, pgs, idx, acc =>
    if cs ≤ buf.length then
      let bp := findBreakPoint buf cs
      let ct := pyStrip (buf.take bp)
      let acc' := if ct.isEmpty then acc
        else acc ++ [⟨docId, idx, pgs, ct, ct.length⟩]
      let idx' := if ct.isEmpty then idx else idx + 1
      let buf' := buf.drop (bp - ov)
      chunkGo docId cs ov fuel pages buf' (collapseLast pgs) idx' acc'
    else
      match pages with
      | [] =>
        let fin := pyStrip buf
        some (if fin.isEmpty then acc
          else acc ++ [⟨docId, idx, pgs, fin, fin.length⟩])
      | p :: rest =>
        let buf' := if buf.isEmpty then p.text else buf ++ '\n' :: '\n' :: p.text
        chunkGo docId cs ov fuel rest buf' (pgs ++ [p.page_number]) idx acc

/-- `PDFProcessor.chunk_text(pages, document_id)` with chunk size `cs` and
overlap `ov`, run with the given fuel. -/
def chunk_text (docId cs ov fuel : Nat) (pages : List PageIn) :
    Option (List DocumentChunk) :=
  chunkGo docId cs ov fuel pages [] [] 0 []

/-- The chunking run finishes within some finite amount of fuel. -/
def ChunkTerminates (docId cs ov : Nat) (pages : List PageIn) : Prop :=
  ∃ fuel, (chunk_text docId cs ov fuel pages).isSome

/-! ## `VectorStore` (vector_store.py)

The FAISS `IndexFlatL2` used by the store is an external library; it is
modelled by its documented contract: an ordered sequence of fixed-dimension
vectors, `add` appends rows after checking that every row has the index
dimension (raising before anything is appended on a mismatch),
`reconstruct i` returns row `i` (raising when `i` is out of range), and
`search` returns the `k` nearest rows by squared Euclidean distance in
ascending order. -/

/-- Error taxonomy of the spec (§7).  `indexError` models the Python
`IndexError` raised by an out-of-range list subscript. -/
inductive VErr where
  | dimensionMismatch
  | arityMismatch
  | indexError
  | persistenceFailure
deriving DecidableEq, Repr

/-- Model of a `faiss.IndexFlatL2`: the dimension and the stored rows. -/
structure FaissIndex where
  dim : Nat
  vecs : List (List ℚ)
deriving DecidableEq, Repr

/-- `index.add(x)`: appends the rows after the dimension check; on a
mismatch it raises without modifying the index. -/
def faissAdd (idx : FaissIndex) (rows : List (List ℚ)) :
    Except VErr FaissIndex :=
  if rows.all (fun r => r.length == idx.dim) then
    .ok ⟨idx.dim, idx.vecs ++ rows⟩
  else .error .dimensionMismatch

/-- Squared Euclidean (L2) distance, the metric of `IndexFlatL2`. -/
def sqDist (q v : List ℚ) : ℚ :=
  ((q.zip v).map (fun p => (p.1 - p.2) ^ 2)).sum

/-- Ordering of `(distance, row-index)` pairs by distance. -/
def distLe (a b : ℚ × Nat) : Prop := a.1 ≤ b.1

instance : DecidableRel distLe := fun a b => inferInstanceAs (Decidable (a.1 ≤ b.1))

instance : IsTotal (ℚ × Nat) distLe := ⟨fun a b => le_total a.1 b.1⟩

instance : IsTrans (ℚ × Nat) distLe := ⟨fun _ _ _ h h' => le_trans h h'⟩

/-- `index.search(q, k)`: the distances and row indices of the `k` nearest
stored rows, ascending by squared L2 distance. -/
def faissSearchPairs (idx : FaissIndex) (q : List ℚ) (k : Nat) :
    List (ℚ × Nat) :=
  (List.insertionSort distLe
    (idx.vecs.enum.map (fun p => (sqDist q p.2, p.1)))).take k

/-- One entry of `VectorStore.metadata` (`vector_id`, `document_id`,
`chunk_index`). -/
structure MetaRec where
  vector_id : Nat
  document_id : Nat
  chunk_index : Nat
deriving DecidableEq, Repr

/-- The in-memory state of a `VectorStore`: FAISS index plus parallel
metadata list. -/
structure VSState where
  index : FaissIndex
  metadata : List MetaRec
deriving DecidableEq, Repr

/-- `VectorStore.add_embeddings(embeddings, document_id, chunk_indices)`.
Returns the state at the moment of return or raise together with the
outcome (`ok (start_idx, end_idx)` as in the source, or the raised error).
The arity check precedes any mutation; the FAISS dimension check raises
before anything is appended; the durable save at the end is the identity
on the in-memory state (its failure behaviour is modelled separately, see
`save_index`). -/
def add_embeddings (s : VSState) (emb : List (List ℚ)) (docId : Nat)
    (ci : List Nat) : VSState × Except VErr (Nat × Int) :=
  if emb.length ≠ ci.length then (s, .error .arityMismatch)
  else
    match faissAdd s.index emb with
    | .error e => (s, .error e)
    | .ok idx' =>
      let start := s.index.vecs.length
      let meta' := s.metadata ++
        ci.enum.map (fun p => ⟨start + p.1, docId, p.2⟩)
      (⟨idx', meta'⟩, .ok (start, (idx'.vecs.length : Int) - 1))

/-- `VectorStore._distance_to_similarity`. -/
def distance_to_similarity (d : ℚ) : ℚ := 1 / (1 + d)

/-- A search result entry: the copied metadata record plus the `distance`
and `similarity_score` fields added by `VectorStore.search`. -/
structure SCand where
  vector_id : Nat
  document_id : Nat
  chunk_index : Nat
  distance : ℚ
  similarity_score : ℚ
deriving DecidableEq, Repr

/-- `VectorStore.search(query_embedding, top_k)`: empty index yields `[]`;
otherwise the `min(top_k, ntotal)` nearest rows, each kept only when its
row index is within the metadata list (`if idx < len(self.metadata)`). -/
def vs_search (s : VSState) (q : List ℚ) (k : Nat) : List SCand :=
  if s.index.vecs.length = 0 then []
  else
    (faissSearchPairs s.index q (min k s.index.vecs.length)).filterMap
      (fun p =>
        match s.metadata[p.2]? with
        | some m => some ⟨m.vector_id, m.document_id, m.chunk_index, p.1,
            distance_to_similarity p.1⟩
        | none => none)

/-- `VectorStore.delete_document_embeddings(document_id)`.  Mirrors the
source line by line: compute `keep_indices` from the current metadata; if
nothing is removed return `False`; otherwise `reconstruct` the retained
rows from the old index, then `_create_index()` (which resets the index
*and clears `self.metadata`*), and, when there are retained rows, re-add
them and rebuild the metadata with `[self.metadata[i] for i in
keep_indices]` — a subscript into the just-cleared list. -/
def keepIndices (s : VSState) (d : Nat) : List Nat :=
  (s.metadata.enum.filter (fun p => p.2.document_id ≠ d)).map (fun p => p.1)

def delete_document_embeddings (s : VSState) (d : Nat) :
    VSState × Except VErr Bool :=
  let keep := keepIndices s d
  if keep.length = s.metadata.length then (s, .ok false)
  else
    match keep.mapM (fun i => s.index.vecs[i]?) with
    | none => (s, .error .indexError)
    | some allVectors =>
      let s₁ : VSState := ⟨⟨s.index.dim, []⟩, []⟩
      if allVectors.isEmpty then (s₁, .ok true)
      else
        match faissAdd s₁.index allVectors with
        | .error e => (⟨s₁.index, []⟩, .error e)
        | .ok idx₂ =>
          match keep.mapM (fun i => s₁.metadata[i]?) with
          | none => (⟨idx₂, []⟩, .error .indexError)
          | some meta₂ =>
            let meta₃ := meta₂.enum.map (fun p => { p.2 with vector_id := p.1 })
            (⟨idx₂, meta₃⟩, .ok true)

/-- The data-model invariant of the spec (§3), as a decidable check:
`len(vectors) == len(records)` and each record's `vector_id` equals its
position. -/
def invariantB (s : VSState) : Bool :=
  (s.metadata.length == s.index.vecs.length) &&
    s.metadata.enum.all (fun p => p.2.vector_id == p.1)

/-- The invariant as a proposition. -/
def Invariant (s : VSState) : Prop := invariantB s = true

instance (s : VSState) : Decidable (Invariant s) := by
  unfold Invariant; infer_instance

/-! ## `VectorStore._save_index` persistence model (for the failure
semantics of the spec §7)

`_save_index` calls `faiss.write_index(self.index, str(self.index_path))`
and then `open(self.metadata_path, 'w')` + `json.dump`: both write
directly to the final paths (opening with mode `'w'` truncates in place);
there is no temporary file and no rename.  The durable medium is modelled
as the byte contents of the two files, and a write as transferring the new
bytes one unit at a time: an interrupted write leaves a prefix of the new
content at the target path. -/

/-- Contents of the two persisted artifacts. -/
structure DiskState where
  indexFile : List Nat
  metaFile : List Nat
deriving DecidableEq, Repr

/-- Outcome of one in-place file write: either it completes, or it fails
after `n` units have been transferred. -/
inductive WriteOutcome where
  | completed
  | failedAfter (n : Nat)
deriving DecidableEq, Repr

/-- `VectorStore._save_index`, given the serialized bytes of the index and
of the metadata and an outcome for each of the two in-place writes.
Returns the resulting disk state and whether the save succeeded (on
failure the source logs and re-raises, so a `false` flag corresponds to a
raised `PersistenceFailure`). -/
def save_index (indexBytes metaBytes : List Nat) (o₁ o₂ : WriteOutcome)
    (d : DiskState) : DiskState × Bool :=
  match o₁ with
  | .failedAfter n => ({ d with indexFile := indexBytes.take n }, false)
  | .completed =>
    match o₂ with
    | .failedAfter n => (⟨indexBytes, metaBytes.take n⟩, false)
    | .completed => (⟨indexBytes, metaBytes⟩, true)

/-! ## Hybrid ranker (`SearchService.search`, scoring and filter stages) -/

/-- Python `\w`, the word characters of `re.findall(r'\w+', ...)` (ASCII
fragment): alphanumerics and the underscore. -/
def isPyWordChar (c : Char) : Bool := c.isAlphanum || c = '_'

/-- Maximal runs of characters satisfying `p` (the matches of
`re.findall` for the pattern "one or more `p`-characters"). -/
def runsBy (p : Char → Bool) : List Char → List (List Char)
  | [] => []
  | c :: cs =>
    match runsBy p cs with
    | [] => if p c then [[c]] else []
    | r :: rs =>
      if p c then
        match cs with
        | [] => [[c]]
        | c' :: _ => if p c' then (c :: r) :: rs else [c] :: r :: rs
      else r :: rs

/-- `set(re.findall(r'\w+', text.lower()))` with the given word-character
predicate. -/
def tokensBy (p : Char → Bool) (s : List Char) : Finset (List Char) :=
  (runsBy p (s.map Char.toLower)).toFinset

/-- The keyword score of `SearchService.search`:
`len(query_tokens ∩ chunk_tokens) / len(query_tokens)`, `0` when the query
has no tokens, over Python `\w+` tokens. -/
def keyword_score (query chunk : List Char) : ℚ :=
  let q := tokensBy isPyWordChar query
  let c := tokensBy isPyWordChar chunk
  if q.card = 0 then 0 else ((q ∩ c).card : ℚ) / (q.card : ℚ)

/-- The keyword score as the claim words it: tokens are lowercase
*alphanumeric* runs (no underscore). -/
def keywordScoreClaimed (query chunk : List Char) : ℚ :=
  let q := tokensBy Char.isAlphanum query
  let c := tokensBy Char.isAlphanum chunk
  if q.card = 0 then 0 else ((q ∩ c).card : ℚ) / (q.card : ℚ)

/-- Configuration defaults of `config.py` (`Settings`). -/
def KEYWORD_BOOST_WEIGHT : ℚ := 1 / 2

/-- `Settings.SEMANTIC_WEIGHT` default. -/
def SEMANTIC_WEIGHT : ℚ := 1 / 2

/-- `Settings.MINIMUM_SIMILARITY_THRESHOLD` default (0.15). -/
def MINIMUM_SIMILARITY_THRESHOLD : ℚ := 3 / 20

/-- One enhanced candidate of `SearchService.search` after the scoring
loop. -/
structure Scored where
  document_id : Nat
  chunk_index : Nat
  keyword_score : ℚ
  semantic_score : ℚ
  combined_score : ℚ
  has_exact_match : Bool
deriving DecidableEq, Repr

/-- The scoring loop of `SearchService.search`: for each vector-search
candidate fetch its chunk text from the collaborator store (`lookup`;
`continue` when missing or empty), tokenize, and compute the keyword,
semantic and combined scores. -/
def scoreCandidates (kw sw : ℚ) (lookup : Nat → Nat → Option (List Char))
    (query : List Char) (cands : List SCand) : List Scored :=
  cands.filterMap (fun r =>
    match lookup r.document_id r.chunk_index with
    | none => none
    | some t =>
      if t.isEmpty then none
      else
        let ks := keyword_score query t
        let ss := r.similarity_score
        some ⟨r.document_id, r.chunk_index, ks, ss, kw * ks + sw * ss,
          decide (ks > 1 / 2)⟩)

/-- The threshold filter of `SearchService.search`: keep candidates with
`combined_score >= threshold`. -/
def filterByThreshold (θ : ℚ) (l : List Scored) : List Scored :=
  l.filter (fun r => θ ≤ r.combined_score)

/-- Collaborator chunk-text lookup returning `"a b"` for every chunk
(used in the C8 counterexample run). -/
def lookupAB : Nat → Nat → Option (List Char) := fun _ _ => some "a b".data

/-- Collaborator chunk-text lookup returning `"hello"` for every chunk. -/
def lookupHello : Nat → Nat → Option (List Char) := fun _ _ => some "hello".data

/-- The scored list of the C8 witness run. -/
def egScored : List Scored :=
  scoreCandidates (1 / 2) (1 / 2) lookupHello "hello".data [⟨0, 3, 1, 0, 1⟩]

/-- The threshold-filtered list of the C8 witness run. -/
def egFiltered : List Scored := filterByThreshold (3 / 20) egScored

/-- The single element of the C8 witness run. -/
def egElem : Scored := ⟨3, 1, 1, 1, 1, true⟩

/-- `_find_break_point` as claim C7 words it: the last paragraph break
when after 70% of `target_size`; else the sentence-terminator break
*nearest to `target_size`* (the maximum of position + delimiter length
over the three kinds) when after 70%; else the last space
(unconditionally); else exactly `target_size`. -/
def findBreakPointClaimed (text : List Char) (target : Nat) : Nat :=
  if text.length ≤ target then text.length
  else
    let paraBreak := rfind text ['\n', '\n'] target
    if 10 * paraBreak > 7 * (target : Int) then paraBreak.toNat
    else
      let best := [['.', ' '], ['!', ' '], ['?', ' ']].foldl
        (fun b pat =>
          let pos := rfind text pat target
          if 0 ≤ pos ∧ b < pos + (pat.length : Int) then
            pos + (pat.length : Int)
          else b) (-1)
      if 10 * best > 7 * (target : Int) then best.toNat
      else
        let wordBreak := rfind text [' '] target
        if 0 ≤ wordBreak then wordBreak.toNat else target

/-- Concrete store used by the C6 witness: two 2-dimensional vectors of
document 7. -/
def sW : VSState := ⟨⟨2, [[1, 2], [3, 4]]⟩, [⟨0, 7, 0⟩, ⟨1, 7, 1⟩]⟩

/-- Adversarial 2500-character page text for C9: `'a'`, a space, then
2498 `'b'`s — its only space in any window is at position 1. -/
def badText2500 : List Char := 'a' :: ' ' :: List.replicate 2498 'b'

/-- Three 2500-character pages of adversarial content. -/
def badPages9 : List PageIn :=
  [⟨1, badText2500⟩, ⟨2, badText2500⟩, ⟨3, badText2500⟩]

/-- Uniform 2500-character page text (`'b' * 2500`). -/
def goodText2500 : List Char := List.replicate 2500 'b'

/-- Three uniform 2500-character pages. -/
def goodPages9 : List PageIn :=
  [⟨1, goodText2500⟩, ⟨2, goodText2500⟩, ⟨3, goodText2500⟩]

/-- The five chunks produced by chunking `goodPages9` with
`target_size = 2000`, `overlap = 300`. -/
def goodChunk1 : DocumentChunk := ⟨0, 0, [1], List.replicate 2000 'b', 2000⟩

/-- Second chunk of the `goodPages9` run. -/
def goodChunk2 : DocumentChunk :=
  ⟨0, 1, [1, 2], List.replicate 800 'b' ++ '\n' :: '\n' ::
    List.replicate 1198 'b', 2000⟩

/-- Third chunk of the `goodPages9` run (paragraph break at 1602). -/
def goodChunk3 : DocumentChunk := ⟨0, 2, [2, 3], List.replicate 1602 'b', 1602⟩

/-- Fourth chunk of the `goodPages9` run. -/
def goodChunk4 : DocumentChunk :=
  ⟨0, 3, [3], List.replicate 300 'b' ++ '\n' :: '\n' ::
    List.replicate 1698 'b', 2000⟩

/-- Final chunk of the `goodPages9` run. -/
def goodChunk5 : DocumentChunk := ⟨0, 4, [3], List.replicate 1102 'b', 1102⟩

/-- The chunks of the small C9 witness run
(`"hello world foo"`, `target_size = 5`, `overlap = 0`). -/
def chunksSmall : List DocumentChunk :=
  [⟨0, 0, [1], "hello".data, 5⟩, ⟨0, 1, [1], "worl".data, 4⟩,
   ⟨0, 2, [1], "d foo".data, 5⟩]

/-! ## Declarative characterization of `rfind` -/

/-- Termination measure for the chunker: buffer length plus the total
contribution (text, separator, bookkeeping) of the remaining pages. -/
def chunkMeasure (pages : List PageIn) (buf : List Char) : Nat :=
  buf.length + (pages.map (fun p => p.text.length + 2)).sum + pages.length

/-- `i` is the start of the last occurrence of `pat` lying entirely inside
`text[0:e]`. -/
def IsLastMatch (text pat : List Char) (e i : Nat) : Prop :=
  matchesAt text pat i = true ∧ i + pat.length ≤ e ∧
    ∀ j < e + 1, i < j → j + pat.length ≤ e → matchesAt text pat j = false

instance (text pat : List Char) (e i : Nat) :
    Decidable (IsLastMatch text pat e i) := by
  unfold IsLastMatch; infer_instance

/-- No occurrence of `pat` lies entirely inside `text[0:e]`. -/
def NoMatchIn (text pat : List Char) (e : Nat) : Prop :=
  ∀ j < e + 1, j + pat.length ≤ e → matchesAt text pat j = false

instance (text pat : List Char) (e : Nat) : Decidable (NoMatchIn text pat e) := by
  unfold NoMatchIn; infer_instance

theorem getLast?_eq_of_max {l : List Nat} {i : Nat} (hs : l.Pairwise (· < ·))
    (hi : i ∈ l) (hmax : ∀ j ∈ l, j ≤ i) : l.getLast? = some i := by
  induction l with
  | nil => cases hi
  | cons a t ih =>
    cases t with
    | nil =>
      rcases List.mem_cons.mp hi with h | h
      · simp [h]
      · cases h
    | cons b t' =>
      rw [List.getLast?_cons_cons]
      have hab : a < b := (List.pairwise_cons.mp hs).1 b (List.mem_cons_self b t')
      rcases List.mem_cons.mp hi with h | h
      · exact absurd (hmax b (List.mem_cons_of_mem a (List.mem_cons_self b t')))
          (by omega)
      · exact ih (List.pairwise_cons.mp hs).2 h
          (fun j hj => hmax j (List.mem_cons_of_mem a hj))

theorem rfind_eq_of_isLastMatch {text pat : List Char} {e i : Nat}
    (h : IsLastMatch text pat e i) : rfind text pat e = i := by
  obtain ⟨hm, hle, hlast⟩ := h
  unfold rfind
  have hfil : ((List.range (e + 1)).filter
      (fun j => decide (j + pat.length ≤ e) && matchesAt text pat j)).getLast?
        = some i := by
    apply getLast?_eq_of_max
    · exact (List.sorted_lt_range (e + 1)).filter _
    · rw [List.mem_filter, List.mem_range]
      refine ⟨by omega, ?_⟩
      simp [hle, hm]
    · intro j hj
      rw [List.mem_filter, List.mem_range] at hj
      obtain ⟨hj1, hj2⟩ := hj
      simp only [Bool.and_eq_true, decide_eq_true_eq] at hj2
      by_contra hlt
      push_neg at hlt
      have hfalse := hlast j hj1 hlt hj2.1
      rw [hfalse] at hj2
      exact absurd hj2.2 (by simp)
  rw [hfil]

theorem rfind_eq_neg_one {text pat : List Char} {e : Nat}
    (h : NoMatchIn text pat e) : rfind text pat e = -1 := by
  unfold rfind
  have hfil : (List.range (e + 1)).filter
      (fun j => decide (j + pat.length ≤ e) && matchesAt text pat j) = [] := by
    rw [List.filter_eq_nil_iff]
    intro j hj
    rw [List.mem_range] at hj
    simp only [Bool.and_eq_true, decide_eq_true_eq, not_and]
    intro hje
    rw [h j hj hje]
    simp
  rw [hfil]
  rfl

theorem rfind_cases (text pat : List Char) (e : Nat) :
    rfind text pat e = -1 ∨
      (0 ≤ rfind text pat e ∧
        rfind text pat e + (pat.length : Int) ≤ (e : Int) ∧
        matchesAt text pat (rfind text pat e).toNat = true) := by
  unfold rfind
  cases hg : ((List.range (e + 1)).filter
      (fun j => decide (j + pat.length ≤ e) && matchesAt text pat j)).getLast? with
  | none => left; rfl
  | some i =>
    right
    dsimp only
    have hmem := List.mem_of_mem_getLast? hg
    rw [List.mem_filter] at hmem
    obtain ⟨-, hp⟩ := hmem
    simp only [Bool.and_eq_true, decide_eq_true_eq] at hp
    refine ⟨by omega, by omega, by simpa using hp.2⟩

theorem matchesAt_head {text : List Char} {c : Char} {cs : List Char} {i : Nat}
    (h : matchesAt text (c :: cs) i = true) : text[i]? = some c := by
  unfold matchesAt at h
  rw [beq_iff_eq] at h
  rw [← List.head?_drop]
  cases hd : text.drop i with
  | nil => rw [hd] at h; simp at h
  | cons a t =>
    rw [hd] at h
    simp only [List.length_cons, List.take_succ_cons, List.cons.injEq] at h
    simp [h.1]

theorem matchesAt_pair {text : List Char} {c₁ c₂ : Char} {i : Nat}
    (h : matchesAt text [c₁, c₂] i = true) :
    text[i]? = some c₁ ∧ text[i + 1]? = some c₂ := by
  unfold matchesAt at h
  rw [beq_iff_eq] at h
  cases hd : text.drop i with
  | nil => rw [hd] at h; simp at h
  | cons a t =>
    rw [hd] at h
    cases t with
    | nil => simp at h
    | cons b t' =>
      simp only [List.length_cons, List.length_nil, List.take_succ_cons,
        List.take_zero, List.cons.injEq, and_true] at h
      constructor
      · rw [← List.head?_drop, hd, h.1]; rfl
      · rw [← List.head?_drop]
        have : text.drop (i + 1) = b :: t' := by
          have h1 : (text.drop i).drop 1 = text.drop (i + 1) := by
            rw [List.drop_drop]
          rw [hd] at h1
          simpa using h1.symm
        rw [this, h.2]
        rfl


theorem badText2500_getElem (i : Nat) :
    badText2500[i]? = if i = 0 then some 'a' else if i = 1 then some ' '
      else if i < 2500 then some 'b' else none := by
  unfold badText2500
  match i with
  | 0 => rw [List.getElem?_cons_zero, if_pos rfl]
  | 1 =>
    rw [List.getElem?_cons_succ, List.getElem?_cons_zero, if_neg (by omega),
      if_pos rfl]
  | (n + 2) =>
    simp only [List.getElem?_cons_succ, List.getElem?_replicate]
    have e0 : ¬ (n + 2 = 0) := by omega
    have e1 : ¬ (n + 2 = 1) := by omega
    rw [if_neg e0, if_neg e1]
    by_cases h : n < 2498
    · rw [if_pos h, if_pos (by omega)]
    · rw [if_neg h, if_neg (by omega)]




/-! ## Bounds on `_find_break_point` -/

theorem sentenceBest_cases (text : List Char) (target : Nat) :
    sentenceBest text target = -1 ∨
      (2 ≤ sentenceBest text target ∧
        sentenceBest text target ≤ (target : Int)) := by
  have h1 := rfind_cases text ['.', ' '] target
  have h2 := rfind_cases text ['!', ' '] target
  have h3 := rfind_cases text ['?', ' '] target
  unfold sentenceBest sentenceStep
  simp only [List.length_cons, List.length_nil] at h1 h2 h3
  rcases h1 with h1 | ⟨h1a, h1b, -⟩ <;> rcases h2 with h2 | ⟨h2a, h2b, -⟩ <;>
    rcases h3 with h3 | ⟨h3a, h3b, -⟩ <;> split_ifs <;> omega

theorem findBreakPoint_le {text : List Char} {target : Nat}
    (h : target ≤ text.length) : findBreakPoint text target ≤ target := by
  have hp := rfind_cases text ['\n', '\n'] target
  have hs := sentenceBest_cases text target
  have hw := rfind_cases text [' '] target
  unfold findBreakPoint
  dsimp only
  simp only [List.length_cons, List.length_nil] at hp hw
  rcases hp with hp | ⟨hpa, hpb, -⟩ <;> rcases hs with hs | ⟨hsa, hsb⟩ <;>
    rcases hw with hw | ⟨hwa, hwb, -⟩ <;> split_ifs <;> omega

theorem findBreakPoint_pos {text : List Char} {target : Nat} (h0 : 0 < target)
    (h : target ≤ text.length) : 1 ≤ findBreakPoint text target := by
  unfold findBreakPoint
  dsimp only
  split_ifs <;> omega

theorem pyStrip_length_le (l : List Char) : (pyStrip l).length ≤ l.length := by
  unfold pyStrip
  have a1 := (List.dropWhile_sublist (l := (l.dropWhile isPyWs).reverse)
    isPyWs).length_le
  have a2 := (List.dropWhile_sublist (l := l) isPyWs).length_le
  simp only [List.length_reverse] at a1 ⊢
  omega

/-! ## Claim C1 -/

/-- C1 (code-bug evidence): `_save_index` writes the snapshot in place at
the index path (`faiss.write_index(self.index, str(self.index_path))` and
`open(self.metadata_path, 'w')` both target the final paths; there is no
temporary file and no atomic swap).  A save interrupted after one unit
leaves the partial content `[4]` at the index path — neither the prior
snapshot `[1, 2, 3]` nor the new one `[4, 5, 6]` — while the failure is
reported (the source re-raises). -/
theorem C1_save_inplace_partial_write :
    save_index [4, 5, 6] [7, 8] (.failedAfter 1) .completed ⟨[1, 2, 3], [9]⟩
        = (⟨[4], [9]⟩, false) ∧
    ([4] : List Nat) ≠ [1, 2, 3] ∧ ([4] : List Nat) ≠ [4, 5, 6] :=
  ⟨rfl, by decide, by decide⟩

/-! ## Claim C3 -/

/-- C3: `add_embeddings` fails with `ArityMismatch` whenever the number of
vectors differs from the number of chunk indices; when the counts agree
but some vector's length differs from the index dimension, it fails with
`DimensionMismatch`; in either failure case the returned state is exactly
the prior state (existing vectors and records untouched). -/
theorem C3_add_failure_semantics (s : VSState) (emb : List (List ℚ))
    (docId : Nat) (ci : List Nat) :
    (emb.length ≠ ci.length →
      add_embeddings s emb docId ci = (s, .error .arityMismatch)) ∧
    (emb.length = ci.length → (∃ v ∈ emb, v.length ≠ s.index.dim) →
      add_embeddings s emb docId ci = (s, .error .dimensionMismatch)) := by
  constructor
  · intro h
    unfold add_embeddings
    rw [if_pos h]
  · intro h hv
    unfold add_embeddings
    rw [if_neg (by simp [h])]
    have hall : ¬ (emb.all fun r => r.length == s.index.dim) = true := by
      simp only [List.all_eq_true, beq_iff_eq]
      push_neg
      exact hv
    unfold faissAdd
    rw [if_neg hall]

/-- Witness for C3 at concrete inputs: an arity mismatch and a dimension
mismatch on an empty two-dimensional index. -/
theorem C3_witness :
    add_embeddings ⟨⟨2, []⟩, []⟩ [[(1 : ℚ), 2]] 7 []
        = (⟨⟨2, []⟩, []⟩, .error .arityMismatch) ∧
    add_embeddings ⟨⟨2, []⟩, []⟩ [[(1 : ℚ), 2, 3]] 7 [0]
        = (⟨⟨2, []⟩, []⟩, .error .dimensionMismatch) :=
  ⟨(C3_add_failure_semantics _ _ _ _).1 (by decide),
   (C3_add_failure_semantics _ _ _ _).2 (by decide)
     ⟨[1, 2, 3], by simp, by decide⟩⟩

/-! ## Claim C5 -/

/-- C5 (code-bug evidence): on an index holding one vector of document 1
and one of document 2, `delete_document_embeddings(1)` raises `IndexError`
instead of returning `True`: `_create_index()` clears `self.metadata`
before the rebuild reads `self.metadata[i]`.  At the raise the survivor
vector has been re-added but the metadata list is empty (and the empty
index was already persisted by `_create_index`). -/
theorem C5_delete_with_survivors_raises :
    delete_document_embeddings ⟨⟨1, [[0], [1]]⟩, [⟨0, 1, 0⟩, ⟨1, 2, 0⟩]⟩ 1
      = (⟨⟨1, [[1]]⟩, []⟩, .error .indexError) := rfl

/-! ## Claim C10 -/

/-- C10 (code-bug evidence): a `delete_document_embeddings` call that
would return `True` with surviving entries never completes — it raises
`IndexError` on the metadata rebuild — so the code cannot exhibit the
claimed frame property.  Concretely, deleting document 9 from an index
also holding document 4 crashes with the survivors' records lost. -/
theorem C10_delete_survivors_crash :
    delete_document_embeddings ⟨⟨1, [[5], [6], [7]]⟩,
        [⟨0, 4, 0⟩, ⟨1, 9, 0⟩, ⟨2, 4, 1⟩]⟩ 9
      = (⟨⟨1, [[5], [7]]⟩, []⟩, .error .indexError) := rfl






/-! ## Claim C2 -/

/-- In the buffer `"a bbbbb"` with `target_size = 5` the only space in the
window is at position 1, so the break point is 1 and the slide
`max(0, 1 - 3) = 0` leaves the buffer unchanged: the cut loop never
finishes, whatever the fuel. -/
theorem chunkGo_stuck_C2 : ∀ fuel pgs idx acc,
    chunkGo 0 5 3 fuel [] "a bbbbb".data pgs idx acc = none := by
  intro fuel
  induction fuel with
  | zero => intro pgs idx acc; rfl
  | succ n ih =>
    intro pgs idx acc
    have h1 : chunkGo 0 5 3 (n + 1) [] "a bbbbb".data pgs idx acc
        = chunkGo 0 5 3 n [] "a bbbbb".data (collapseLast pgs)
            (idx + 1) (acc ++ [⟨0, idx, pgs, ['a'], 1⟩]) := rfl
    rw [h1]
    exact ih _ _ _

/-- C2 is false as stated: with `target_size = 5 > 0` and `overlap = 3 ≥ 0`
chunking the single page `"a bbbbb"` never terminates — the chosen break
point (1) does not exceed the overlap, so sliding the buffer to
`max(0, break_point - overlap) = 0` does not shrink it and the inner loop
re-cuts the same chunk forever. -/
theorem C2_counterexample :
    ¬ ChunkTerminates 0 5 3 [⟨1, "a bbbbb".data⟩] := by
  rintro ⟨fuel, h⟩
  cases fuel with
  | zero => exact absurd h (by decide)
  | succ n =>
    have h1 : chunk_text 0 5 3 (n + 1) [⟨1, "a bbbbb".data⟩]
        = chunkGo 0 5 3 n [] "a bbbbb".data [1] 0 [] := rfl
    rw [h1, chunkGo_stuck_C2] at h
    exact absurd h (by decide)

theorem chunkGo_total_ov_zero (docId cs : Nat) (h1 : 1 ≤ cs) :
    ∀ n pages buf pgs idx acc, chunkMeasure pages buf ≤ n →
      (chunkGo docId cs 0 (n + 1) pages buf pgs idx acc).isSome = true := by
  intro n
  induction n using Nat.strong_induction_on with
  | _ n ih =>
    intro pages buf pgs idx acc hm
    rw [chunkGo.eq_def]
    dsimp only
    split
    · rename_i hcs
      have hbp1 := findBreakPoint_pos h1 hcs
      have hbp2 := findBreakPoint_le hcs
      cases n with
      | zero =>
        exfalso
        have : 1 ≤ buf.length := le_trans h1 hcs
        simp only [chunkMeasure] at hm
        omega
      | succ m =>
        apply ih m (by omega)
        simp only [chunkMeasure, List.length_drop] at hm ⊢
        omega
    · rename_i hcs
      cases pages with
      | nil => rfl
      | cons p rest =>
        cases n with
        | zero =>
          exfalso
          simp only [chunkMeasure, List.length_cons] at hm
          omega
        | succ m =>
          apply ih m (by omega)
          have hb : (if buf.isEmpty then p.text
              else buf ++ '\n' :: '\n' :: p.text).length
              ≤ buf.length + p.text.length + 2 := by
            split_ifs with hbe
            · omega
            · simp only [List.length_append, List.length_cons]
              omega
          simp only [chunkMeasure, List.map_cons, List.sum_cons,
            List.length_cons] at hm ⊢
          omega

/-- C2 amended: the chunking operation terminates for every page sequence
and every `target_size > 0` when `overlap = 0` (each cut removes at least
one character from the buffer); with `overlap > 0` termination is not
guaranteed, because the slide can retain the whole buffer when the chosen
break point does not exceed the overlap. -/
theorem C2_amended_terminates (docId cs : Nat) (pages : List PageIn)
    (h : 0 < cs) : ChunkTerminates docId cs 0 pages :=
  ⟨chunkMeasure pages [] + 1,
    chunkGo_total_ov_zero docId cs h (chunkMeasure pages []) pages [] [] 0 []
      (le_refl _)⟩

/-- Witness for C2 amended at a concrete input. -/
theorem C2_witness : (0 : Nat) < 5 ∧ ChunkTerminates 0 5 0 [⟨1, "ab".data⟩] :=
  ⟨by decide, C2_amended_terminates 0 5 [⟨1, "ab".data⟩] (by decide)⟩






/-! ## Claim C4 -/

/-- The invariant, spelled positionally: counts agree and every record's
`vector_id` is its position. -/
theorem invariant_iff (s : VSState) :
    Invariant s ↔ s.metadata.length = s.index.vecs.length ∧
      ∀ (i : Nat) (x : MetaRec), s.metadata[i]? = some x → x.vector_id = i := by
  unfold Invariant invariantB
  rw [Bool.and_eq_true, beq_iff_eq, List.all_eq_true]
  constructor
  · rintro ⟨h1, h2⟩
    refine ⟨h1, fun i x hx => ?_⟩
    have := h2 (i, x) ((List.mem_enum_iff_getElem? (x := (i, x))).mpr hx)
    simpa using this
  · rintro ⟨h1, h2⟩
    refine ⟨h1, fun p hp => ?_⟩
    have := h2 p.1 p.2 ((List.mem_enum_iff_getElem? (x := p)).mp hp)
    simpa using this

theorem mapM_getElem_nil {l : List Nat} (h : l ≠ []) :
    l.mapM (fun i => ([] : List MetaRec)[i]?) = none := by
  cases l with
  | nil => exact absurd rfl h
  | cons a t => rw [List.mapM_cons]; simp

/-- Every `ok` result of `delete_document_embeddings` leaves either the
original state (no match) or the freshly created empty state (every record
belonged to the deleted document); the rebuild path with survivors always
raises before returning. -/
theorem delete_ok_cases {s : VSState} {d : Nat} {s' : VSState} {b : Bool}
    (hdel : delete_document_embeddings s d = (s', .ok b)) :
    (s' = s ∧ b = false) ∨ (s' = ⟨⟨s.index.dim, []⟩, []⟩ ∧ b = true) := by
  unfold delete_document_embeddings at hdel
  dsimp only at hdel
  split_ifs at hdel with h1
  · left
    have := Prod.mk.injEq .. ▸ hdel
    simp only [Prod.mk.injEq, Except.ok.injEq] at hdel
    exact ⟨hdel.1.symm, hdel.2.symm⟩
  · split at hdel
    · simp only [Prod.mk.injEq] at hdel
      exact absurd hdel.2 (by simp)
    · rename_i allVectors hmm
      split_ifs at hdel with h2
      · right
        simp only [Prod.mk.injEq, Except.ok.injEq] at hdel
        exact ⟨hdel.1.symm, hdel.2.symm⟩
      · exfalso
        have hne : keepIndices s d ≠ [] := by
          intro hk
          rw [hk, List.mapM_nil] at hmm
          have : allVectors = [] := by simpa using hmm.symm
          rw [this] at h2
          exact h2 rfl
        split at hdel
        · simp only [Prod.mk.injEq] at hdel
          exact absurd hdel.2 (by simp)
        · split at hdel
          · simp only [Prod.mk.injEq] at hdel
            exact absurd hdel.2 (by simp)
          · rename_i meta₂ hmm2
            rw [mapM_getElem_nil hne] at hmm2
            cases hmm2

/-- C4: starting from a state satisfying the data-model invariant, every
*successful* `add_embeddings` and every *successful*
`delete_document_embeddings` leaves a state in which the number of stored
vectors equals the number of metadata records and the records'
`vector_id`s are exactly the contiguous range `[0, total_vectors)` (each
record's `vector_id` is its position). -/
theorem C4_invariant_preserved (s : VSState) (h : Invariant s) :
    (∀ emb docId ci s' r, add_embeddings s emb docId ci = (s', .ok r) →
      Invariant s') ∧
    (∀ d s' b, delete_document_embeddings s d = (s', .ok b) → Invariant s') := by
  obtain ⟨hlen, hid⟩ := (invariant_iff s).mp h
  constructor
  · intro emb docId ci s' r hadd
    unfold add_embeddings at hadd
    by_cases harity : emb.length ≠ ci.length
    · rw [if_pos harity] at hadd
      simp only [Prod.mk.injEq] at hadd
      exact absurd hadd.2 (by simp)
    · rw [if_neg harity] at hadd
      push_neg at harity
      cases hfa : faissAdd s.index emb with
      | error e =>
        rw [hfa] at hadd
        simp only [Prod.mk.injEq] at hadd
        exact absurd hadd.2 (by simp)
      | ok idx' =>
        rw [hfa] at hadd
        simp only [Prod.mk.injEq, Except.ok.injEq] at hadd
        obtain ⟨hs', -⟩ := hadd
        unfold faissAdd at hfa
        split_ifs at hfa with hall
        · injection hfa with hfa
          rw [← hs', ← hfa, invariant_iff]
          constructor
          · simp [harity, hlen]
          · intro i x hx
            dsimp only at hx
            by_cases hi : i < s.metadata.length
            · rw [List.getElem?_append_left hi] at hx
              exact hid i x hx
            · push_neg at hi
              rw [List.getElem?_append_right hi, List.getElem?_map,
                List.getElem?_enum] at hx
              cases hc : ci[i - s.metadata.length]? with
              | none => rw [hc] at hx; cases hx
              | some c =>
                rw [hc] at hx
                simp only [Option.map_some', Option.some.injEq] at hx
                rw [← hx]
                dsimp only
                obtain ⟨hilt, -⟩ := List.getElem?_eq_some.mp hc
                omega
  · intro d s' b hdel
    rcases delete_ok_cases hdel with ⟨hs', -⟩ | ⟨hs', -⟩
    · rw [hs']; exact h
    · rw [hs', invariant_iff]
      exact ⟨rfl, fun i x hx => by simp at hx⟩






/-- Witness for C4: a concrete successful add (on an empty 2-dimensional
index) and a concrete successful delete (of the only document), both
preserving the invariant. -/
theorem C4_witness :
    Invariant ⟨⟨2, [[1, 2]]⟩, [⟨0, 7, 0⟩]⟩ ∧ Invariant ⟨⟨1, []⟩, []⟩ :=
  ⟨(C4_invariant_preserved ⟨⟨2, []⟩, []⟩ (by decide)).1 [[1, 2]] 7 [0]
      ⟨⟨2, [[1, 2]]⟩, [⟨0, 7, 0⟩]⟩ (0, 0) rfl,
   (C4_invariant_preserved ⟨⟨1, [[0]]⟩, [⟨0, 3, 0⟩]⟩ (by decide)).2 3
      ⟨⟨1, []⟩, []⟩ true rfl⟩






/-! ## Claim C8 -/

theorem keyword_score_ab : keyword_score "a_b".data "a b".data = 0 := by
  unfold keyword_score
  have h1 : (tokensBy isPyWordChar "a_b".data).card = 1 := by decide
  have h2 : (tokensBy isPyWordChar "a_b".data ∩
      tokensBy isPyWordChar "a b".data).card = 0 := by decide
  simp only [h1, h2]
  norm_num

/-- C8 is false as stated: the tokenizer is `re.findall(r'\w+', ...)`,
whose word characters include the underscore, not plain alphanumeric runs.
For query `"a_b"` and chunk text `"a b"` the code's keyword score is 0
(token sets `{"a_b"}` vs `{"a","b"}` are disjoint), while the
alphanumeric-run score the claim describes is 1; the pipeline run scores
the candidate 0 accordingly. -/
theorem C8_counterexample :
    keyword_score "a_b".data "a b".data = 0 ∧
    keywordScoreClaimed "a_b".data "a b".data = 1 ∧
    scoreCandidates (1 / 2) (1 / 2) lookupAB "a_b".data [⟨0, 0, 0, 0, 0⟩]
      = [⟨0, 0, 0, 0, 0, false⟩] ∧ (0 : ℚ) ≠ 1 := by
  refine ⟨keyword_score_ab, ?_, ?_, by norm_num⟩
  · unfold keywordScoreClaimed
    have h1 : (tokensBy Char.isAlphanum "a_b".data).card = 2 := by decide
    have h2 : (tokensBy Char.isAlphanum "a_b".data ∩
        tokensBy Char.isAlphanum "a b".data).card = 2 := by decide
    simp only [h1, h2]
    norm_num
  · unfold scoreCandidates lookupAB
    simp only [List.filterMap_cons, List.filterMap_nil]
    dsimp only
    rw [if_neg (by decide)]
    have hab : keyword_score ['a', '_', 'b'] ['a', ' ', 'b'] = 0 :=
      keyword_score_ab
    have hd : decide (keyword_score ['a', '_', 'b'] ['a', ' ', 'b'] > 1 / 2)
        = false := by
      rw [hab]
      exact decide_eq_false (by norm_num)
    simp only [hab, hd]
    norm_num

/-- C8 amended: with tokens being maximal runs of Python word characters
(alphanumerics *and underscore*, `\w+`) rather than pure alphanumeric
runs, every scored candidate's keyword score is `|q ∩ c| / |q|` over those
lowercase token sets (0 when the query has no tokens, built into
`keyword_score`), its combined score is
`keyword_weight * keyword_score + semantic_weight * semantic_score`, and
the threshold filter keeps exactly the scored candidates with
`combined_score ≥ θ`, so no below-threshold candidate reaches grouping.
The configured defaults are 1/2, 1/2 and 3/20 = 0.15. -/
theorem C8_amended_scoring (kw sw θ : ℚ)
    (lookup : Nat → Nat → Option (List Char)) (query : List Char)
    (cands : List SCand) :
    (∀ r ∈ scoreCandidates kw sw lookup query cands,
      (∃ t, lookup r.document_id r.chunk_index = some t ∧
        r.keyword_score = keyword_score query t) ∧
      r.combined_score = kw * r.keyword_score + sw * r.semantic_score) ∧
    (∀ r ∈ filterByThreshold θ (scoreCandidates kw sw lookup query cands),
      θ ≤ r.combined_score ∧
        r ∈ scoreCandidates kw sw lookup query cands) ∧
    KEYWORD_BOOST_WEIGHT = 1 / 2 ∧ SEMANTIC_WEIGHT = 1 / 2 ∧
      MINIMUM_SIMILARITY_THRESHOLD = 3 / 20 := by
  refine ⟨?_, ?_, rfl, rfl, rfl⟩
  · intro r hr
    unfold scoreCandidates at hr
    rw [List.mem_filterMap] at hr
    obtain ⟨c, hc, he⟩ := hr
    cases hl : lookup c.document_id c.chunk_index with
    | none => rw [hl] at he; cases he
    | some t =>
      rw [hl] at he
      dsimp only at he
      by_cases hte : t.isEmpty = true
      · rw [if_pos hte] at he
        cases he
      · rw [if_neg hte] at he
        injection he with he2
        subst he2
        exact ⟨⟨t, hl, rfl⟩, rfl⟩
  · intro r hr
    unfold filterByThreshold at hr
    rw [List.mem_filter] at hr
    exact ⟨by simpa using hr.2, hr.1⟩

theorem egScored_eq : egScored = [egElem] := by
  unfold egScored scoreCandidates lookupHello
  simp only [List.filterMap_cons, List.filterMap_nil]
  dsimp only
  rw [if_neg (by decide)]
  have hks : keyword_score ['h', 'e', 'l', 'l', 'o'] ['h', 'e', 'l', 'l', 'o']
      = 1 := by
    unfold keyword_score
    have h1 : (tokensBy isPyWordChar ['h', 'e', 'l', 'l', 'o']).card = 1 := by
      decide
    have h2 : (tokensBy isPyWordChar ['h', 'e', 'l', 'l', 'o'] ∩
        tokensBy isPyWordChar ['h', 'e', 'l', 'l', 'o']).card = 1 := by decide
    simp only [h1, h2]
    norm_num
  have hd : decide
      (keyword_score ['h', 'e', 'l', 'l', 'o'] ['h', 'e', 'l', 'l', 'o'] > 1 / 2)
      = true := by
    rw [hks]
    exact decide_eq_true (by norm_num)
  simp only [hks, hd]
  unfold egElem
  norm_num

theorem egFiltered_eq : egFiltered = [egElem] := by
  unfold egFiltered filterByThreshold
  rw [egScored_eq]
  have hd : decide ((3 : ℚ) / 20 ≤ egElem.combined_score) = true := by
    apply decide_eq_true
    unfold egElem
    norm_num
  simp [hd]

/-- Witness for C8 amended: a concrete run in which the single candidate
(query `"hello"`, chunk text `"hello"`, similarity 1) survives the default
threshold. -/
theorem C8_witness :
    (3 : ℚ) / 20 ≤ egElem.combined_score ∧ egElem ∈ egScored :=
  (C8_amended_scoring (1 / 2) (1 / 2) (3 / 20) lookupHello "hello".data
      [⟨0, 3, 1, 0, 1⟩]).2.1 egElem
    (by show egElem ∈ egFiltered
        rw [egFiltered_eq]
        exact List.mem_singleton_self _)






/-! ## Claim C7 -/

/-- C7 is false as stated, in two ways.  (1) In `"abcdef. ! Xtra"` with
`target_size = 10` both a `'. '` (position 6, break 8) and a `'! '`
(position 8, break 10) fall after 70%; the terminator nearest the target
gives break 10, but the source compares the raw position 8 against the
stored best 8 (`pos > best_break`, which already includes the delimiter
length), so `'. '` wins and the code returns 8.  (2) In `" aaaaaa"` with
`target_size = 5` the last space is at position 0; the claim's "else the
last space" gives 0, but the source's `if word_break > 0` guard rejects it
and returns `target_size = 5`. -/
theorem C7_counterexample :
    findBreakPoint "abcdef. ! Xtra".data 10 = 8 ∧
    findBreakPointClaimed "abcdef. ! Xtra".data 10 = 10 ∧
    findBreakPoint " aaaaaa".data 5 = 5 ∧
    findBreakPointClaimed " aaaaaa".data 5 = 0 :=
  ⟨by decide, by decide, by decide, by decide⟩

/-- C7 amended: when cutting from a buffer longer than `target_size`, the
chosen break point is positive and at most `target_size`; the last
paragraph break wins when it falls after 70% of `target_size`; otherwise
the sentence scan walks the kinds in order `'. '`, `'! '`, `'? '`,
replacing the stored best (a position *plus delimiter length*) only when a
later kind's raw position exceeds it — not necessarily the kind nearest
`target_size` — and its result wins when after 70%; otherwise the last
space wins only when at a positive position; otherwise the cut is at
exactly `target_size`. -/
theorem C7_amended_break_point (text : List Char) (target : Nat)
    (h0 : 0 < target) (hl : target < text.length) :
    (1 ≤ findBreakPoint text target ∧ findBreakPoint text target ≤ target) ∧
    (∀ i : Nat, IsLastMatch text ['\n', '\n'] target i →
      7 * (target : Int) < 10 * i → findBreakPoint text target = i) ∧
    (10 * rfind text ['\n', '\n'] target ≤ 7 * (target : Int) →
      7 * (target : Int) < 10 * sentenceBest text target →
      findBreakPoint text target = (sentenceBest text target).toNat) ∧
    (∀ i : Nat, 0 < i → IsLastMatch text [' '] target i →
      10 * rfind text ['\n', '\n'] target ≤ 7 * (target : Int) →
      10 * sentenceBest text target ≤ 7 * (target : Int) →
      findBreakPoint text target = i) ∧
    (NoMatchIn text [' '] target →
      10 * rfind text ['\n', '\n'] target ≤ 7 * (target : Int) →
      10 * sentenceBest text target ≤ 7 * (target : Int) →
      findBreakPoint text target = target) := by
  refine ⟨⟨findBreakPoint_pos h0 (le_of_lt hl), findBreakPoint_le (le_of_lt hl)⟩,
    ?_, ?_, ?_, ?_⟩
  · intro i hi hgt
    unfold findBreakPoint
    rw [if_neg (by omega)]
    dsimp only
    rw [rfind_eq_of_isLastMatch hi, if_pos (by omega)]
    omega
  · intro hpar hsent
    unfold findBreakPoint
    rw [if_neg (by omega)]
    dsimp only
    rw [if_neg (by omega), if_pos (by omega)]
  · intro i hpi hi hpar hsent
    unfold findBreakPoint
    rw [if_neg (by omega)]
    dsimp only
    rw [if_neg (by omega), if_neg (by omega),
      rfind_eq_of_isLastMatch hi, if_pos (by omega)]
    omega
  · intro hnsp hpar hsent
    unfold findBreakPoint
    rw [if_neg (by omega)]
    dsimp only
    rw [if_neg (by omega), if_neg (by omega), rfind_eq_neg_one hnsp,
      if_neg (by omega)]

/-- Witness for C7 amended: a paragraph break at position 8 of
`"abcdefgh\n\nXtra"` with `target_size = 10` falls after 70% and is the
chosen break point, which is within the target. -/
theorem C7_witness :
    findBreakPoint "abcdefgh\n\nXtra".data 10 = 8 ∧
    findBreakPoint "abcdefgh\n\nXtra".data 10 ≤ 10 :=
  ⟨(C7_amended_break_point _ 10 (by decide) (by decide)).2.1 8 (by decide)
      (by decide),
   (C7_amended_break_point _ 10 (by decide) (by decide)).1.2⟩






/-! ## Claim C6 -/

theorem map_fst_insertionSort (l : List (ℚ × Nat)) :
    (List.insertionSort distLe l).map Prod.fst =
      List.insertionSort (· ≤ ·) (l.map Prod.fst) := by
  apply List.eq_of_perm_of_sorted (r := (· ≤ ·))
  · exact ((List.perm_insertionSort distLe l).map Prod.fst).trans
      (List.perm_insertionSort (· ≤ ·) (l.map Prod.fst)).symm
  · exact List.Pairwise.map Prod.fst (fun a b hab => hab)
      (List.sorted_insertionSort distLe l)
  · exact List.sorted_insertionSort _ _

theorem mem_pairs_lt {idx : FaissIndex} {q : List ℚ} {p : ℚ × Nat}
    (hp : p ∈ idx.vecs.enum.map (fun e => (sqDist q e.2, e.1))) :
    p.2 < idx.vecs.length := by
  rw [List.mem_map] at hp
  obtain ⟨e, he, rfl⟩ := hp
  have h2 := (List.mem_enum_iff_getElem? (x := e)).mp he
  obtain ⟨hlt, -⟩ := List.getElem?_eq_some.mp h2
  exact hlt

theorem mem_faissSearchPairs_lt {idx : FaissIndex} {q : List ℚ} {k : Nat}
    {p : ℚ × Nat} (hp : p ∈ faissSearchPairs idx q k) :
    p.2 < idx.vecs.length := by
  unfold faissSearchPairs at hp
  have hp2 := List.take_subset _ _ hp
  have hp3 := (List.perm_insertionSort distLe _).subset hp2
  exact mem_pairs_lt hp3

theorem filterMap_lookup_spec (s : VSState) (L : List (ℚ × Nat))
    (h : ∀ p ∈ L, p.2 < s.metadata.length) :
    (L.filterMap (fun p =>
        match s.metadata[p.2]? with
        | some m => some (⟨m.vector_id, m.document_id, m.chunk_index, p.1,
            distance_to_similarity p.1⟩ : SCand)
        | none => none)).map (fun c => c.distance) = L.map Prod.fst := by
  induction L with
  | nil => rfl
  | cons a t ih =>
    have ha := h a (List.mem_cons_self a t)
    rw [List.filterMap_cons, List.getElem?_eq_getElem ha]
    dsimp only
    simp only [List.map_cons, List.cons.injEq]
    exact ⟨trivial, ih (fun p hp => h p (List.mem_cons_of_mem a hp))⟩

theorem mem_vs_search_sim {s : VSState} {q : List ℚ} {k : Nat} {c : SCand}
    (hc : c ∈ vs_search s q k) :
    c.similarity_score = distance_to_similarity c.distance := by
  unfold vs_search at hc
  split_ifs at hc with h
  · cases hc
  · rw [List.mem_filterMap] at hc
    obtain ⟨p, hp, he⟩ := hc
    cases hm : s.metadata[p.2]? with
    | none => rw [hm] at he; cases he
    | some m =>
      rw [hm] at he
      dsimp only at he
      injection he with h2
      rw [← h2]

theorem vs_search_sorted (s : VSState) (q : List ℚ) (k : Nat) :
    (vs_search s q k).Pairwise (fun a b => a.distance ≤ b.distance) := by
  unfold vs_search
  split_ifs with h
  · exact List.Pairwise.nil
  · rw [List.pairwise_filterMap]
    have hs : (faissSearchPairs s.index q
        (min k s.index.vecs.length)).Pairwise distLe :=
      List.Pairwise.sublist (List.take_sublist _ _)
        (List.sorted_insertionSort distLe _)
    refine hs.imp_of_mem ?_
    intro a b ha hb hab c hc d hd
    cases hma : s.metadata[a.2]? with
    | none => rw [hma] at hc; cases hc
    | some m =>
      rw [hma] at hc
      cases hmb : s.metadata[b.2]? with
      | none => rw [hmb] at hd; cases hd
      | some m' =>
        rw [hmb] at hd
        dsimp only at hc hd
        cases hc
        cases hd
        exact hab

theorem vs_search_length (s : VSState) (q : List ℚ) (k : Nat) :
    (vs_search s q k).length ≤ min k s.index.vecs.length := by
  unfold vs_search
  split_ifs with h
  · simp
  · refine le_trans (List.length_filterMap_le _ _) ?_
    unfold faissSearchPairs
    rw [List.length_take]
    exact min_le_left _ _

theorem distance_to_similarity_strict_anti {d₁ d₂ : ℚ} (h0 : 0 ≤ d₁)
    (h : d₁ < d₂) : distance_to_similarity d₂ < distance_to_similarity d₁ := by
  unfold distance_to_similarity
  apply one_div_lt_one_div_of_lt <;> linarith

theorem distance_to_similarity_mem {d : ℚ} (h0 : 0 ≤ d) :
    0 < distance_to_similarity d ∧ distance_to_similarity d ≤ 1 := by
  unfold distance_to_similarity
  constructor
  · apply one_div_pos.mpr; linarith
  · rw [div_le_one (by linarith)]; linarith

/-- C6: under the data-model invariant, `VectorStore.search` returns at
most `min(k, current_size)` candidates; they are ordered by ascending
squared Euclidean distance and their distances are exactly the `min(k,
size)` smallest distances from the query to the stored vectors (exact
nearest neighbours); an empty index yields the empty list rather than an
error; every returned candidate's `similarity_score` equals
`1 / (1 + distance)`, a quantity that is strictly decreasing in the
distance and lies in (0, 1] for distance ≥ 0. -/
theorem C6_search_spec (s : VSState) (q : List ℚ) (k : Nat)
    (h : Invariant s) :
    (vs_search s q k).length ≤ min k s.index.vecs.length ∧
    (vs_search s q k).Pairwise (fun a b => a.distance ≤ b.distance) ∧
    (s.index.vecs = [] → vs_search s q k = []) ∧
    (vs_search s q k).map (fun c => c.distance) =
      (List.insertionSort (· ≤ ·) (s.index.vecs.map (sqDist q))).take
        (min k s.index.vecs.length) ∧
    (∀ c ∈ vs_search s q k,
      c.similarity_score = distance_to_similarity c.distance) ∧
    (∀ d₁ d₂ : ℚ, 0 ≤ d₁ → d₁ < d₂ →
      distance_to_similarity d₂ < distance_to_similarity d₁) ∧
    (∀ d : ℚ, 0 ≤ d →
      0 < distance_to_similarity d ∧ distance_to_similarity d ≤ 1) := by
  obtain ⟨hlen, -⟩ := (invariant_iff s).mp h
  refine ⟨vs_search_length s q k, vs_search_sorted s q k, ?_, ?_,
    fun c hc => mem_vs_search_sim hc,
    fun d₁ d₂ h0 hlt => distance_to_similarity_strict_anti h0 hlt,
    fun d h0 => distance_to_similarity_mem h0⟩
  · intro hnil
    unfold vs_search
    rw [if_pos (by rw [hnil]; rfl)]
  · unfold vs_search
    split_ifs with hz
    · have hv : s.index.vecs = [] := List.length_eq_zero.mp hz
      rw [hv]
      simp
    · rw [filterMap_lookup_spec s _
        (fun p hp => by have := mem_faissSearchPairs_lt hp; omega)]
      unfold faissSearchPairs
      rw [List.map_take, map_fst_insertionSort]
      congr 2
      rw [List.map_map]
      have : (Prod.fst ∘ fun e : Nat × List ℚ => (sqDist q e.2, e.1))
          = (sqDist q) ∘ Prod.snd := rfl
      rw [this, ← List.map_map, List.enum_map_snd]

/-- Witness for C6 at a concrete store (two vectors, `k = 1`). -/
theorem C6_witness :
    (vs_search sW [1, 2] 1).length ≤ min 1 sW.index.vecs.length ∧
    (0 : ℚ) < distance_to_similarity 5 ∧ distance_to_similarity 5 ≤ 1 ∧
    distance_to_similarity 6 < distance_to_similarity 5 :=
  ⟨(C6_search_spec sW [1, 2] 1 (by decide)).1,
   ((C6_search_spec sW [1, 2] 1 (by decide)).2.2.2.2.2.2 5 (by norm_num)).1,
   ((C6_search_spec sW [1, 2] 1 (by decide)).2.2.2.2.2.2 5 (by norm_num)).2,
   (C6_search_spec sW [1, 2] 1 (by decide)).2.2.2.2.2.1 5 6 (by norm_num)
     (by norm_num)⟩






/-! ## Claim C9: the adversarial run -/






theorem rfind_badText_space : rfind badText2500 [' '] 2000 = 1 := by
  apply rfind_eq_of_isLastMatch (i := 1)
  refine ⟨rfl, by norm_num, ?_⟩
  intro j hj h1j hje
  by_contra hm
  rw [Bool.not_eq_false] at hm
  have hc := matchesAt_head hm
  rw [badText2500_getElem, if_neg (by omega : ¬ j = 0),
    if_neg (by omega : ¬ j = 1), if_pos (by omega : j < 2500)] at hc
  exact absurd hc (by decide)

theorem rfind_badText_none {c : Char} {cs : List Char}
    (h1 : c ≠ 'a') (h2 : c ≠ ' ') (h3 : c ≠ 'b') :
    rfind badText2500 (c :: cs) 2000 = -1 := by
  apply rfind_eq_neg_one
  intro j hj hje
  by_contra hm
  rw [Bool.not_eq_false] at hm
  have hc := matchesAt_head hm
  rw [badText2500_getElem] at hc
  by_cases hj0 : j = 0
  · rw [if_pos hj0] at hc
    exact h1 (Option.some.inj hc).symm
  · rw [if_neg hj0] at hc
    by_cases hj1 : j = 1
    · rw [if_pos hj1] at hc
      exact h2 (Option.some.inj hc).symm
    · rw [if_neg hj1] at hc
      by_cases hj2 : j < 2500
      · rw [if_pos hj2] at hc
        exact h3 (Option.some.inj hc).symm
      · rw [if_neg hj2] at hc
        cases hc





theorem badText2500_length : badText2500.length = 2500 := by
  unfold badText2500
  rw [List.length_cons, List.length_cons, List.length_replicate]

theorem findBreakPoint_badText : findBreakPoint badText2500 2000 = 1 := by
  have hlen := badText2500_length
  have hsb : sentenceBest badText2500 2000 = -1 := by
    unfold sentenceBest
    rw [rfind_badText_none (c := '.') (by decide) (by decide) (by decide),
      rfind_badText_none (c := '!') (by decide) (by decide) (by decide),
      rfind_badText_none (c := '?') (by decide) (by decide) (by decide)]
    decide
  unfold findBreakPoint
  rw [if_neg (by omega)]
  dsimp only
  rw [rfind_badText_none (c := '\n') (by decide) (by decide) (by decide),
    if_neg (by decide), hsb, if_neg (by decide), rfind_badText_space,
    if_pos (by decide)]
  rfl

theorem chunkGo_stuck_badText : ∀ fuel pages pgs idx acc,
    chunkGo 0 2000 300 fuel pages badText2500 pgs idx acc = none := by
  intro fuel
  induction fuel with
  | zero => intro pages pgs idx acc; rfl
  | succ n ih =>
    intro pages pgs idx acc
    have hlen := badText2500_length
    rw [chunkGo.eq_def]
    dsimp only
    rw [if_pos (by omega), findBreakPoint_badText,
      show (1 : Nat) - 300 = 0 from rfl, List.drop_zero]
    exact ih _ _ _ _

/-- C9 is false as stated ("for every page content"): for the three
adversarial 2500-character pages of `badPages9` the chunker never
terminates — after loading the first page the break point is 1 and the
slide `max(0, 1 - 300) = 0` retains the whole buffer — so the run produces
no chunk sequence at all, in particular not one with at least 3 chunks. -/
theorem C9_counterexample : ¬ ChunkTerminates 0 2000 300 badPages9 := by
  rintro ⟨fuel, h⟩
  cases fuel with
  | zero => exact absurd h (by decide)
  | succ n =>
    have h1 : chunk_text 0 2000 300 (n + 1) badPages9
        = chunkGo 0 2000 300 n [⟨2, badText2500⟩, ⟨3, badText2500⟩]
            badText2500 [1] 0 [] := rfl
    rw [h1, chunkGo_stuck_badText] at h
    exact absurd h (by decide)

theorem chunkGo_sizes (docId cs ov : Nat) :
    ∀ fuel pages buf pgs idx acc res,
      (∀ c ∈ acc, c.chunk_size ≤ cs) →
      chunkGo docId cs ov fuel pages buf pgs idx acc = some res →
      ∀ c ∈ res.dropLast, c.chunk_size ≤ cs := by
  intro fuel
  induction fuel with
  | zero => intro _ _ _ _ _ _ _ h; cases h
  | succ n ih =>
    intro pages buf pgs idx acc res hacc h
    rw [chunkGo.eq_def] at h
    dsimp only at h
    by_cases hcs : cs ≤ buf.length
    · rw [if_pos hcs] at h
      by_cases hct : (pyStrip (buf.take (findBreakPoint buf cs))).isEmpty
          = true
      · rw [if_pos hct, if_pos hct] at h
        exact ih pages _ _ _ _ res hacc h
      · rw [if_neg hct, if_neg hct] at h
        refine ih pages _ _ _ _ res ?_ h
        intro c hc
        rcases List.mem_append.mp hc with hold | hnew
        · exact hacc c hold
        · rw [List.mem_singleton] at hnew
          subst hnew
          dsimp only
          calc (pyStrip (buf.take (findBreakPoint buf cs))).length
              ≤ (buf.take (findBreakPoint buf cs)).length :=
                pyStrip_length_le _
            _ ≤ findBreakPoint buf cs := by
                rw [List.length_take]
                exact min_le_left _ _
            _ ≤ cs := findBreakPoint_le hcs
    · rw [if_neg hcs] at h
      cases pages with
      | nil =>
        dsimp only at h
        injection h with h2
        subst h2
        by_cases hfin : (pyStrip buf).isEmpty = true
        · rw [if_pos hfin]
          intro c hc
          exact hacc c ((List.dropLast_sublist _).subset hc)
        · rw [if_neg hfin, List.dropLast_concat]
          exact hacc
      | cons p rest =>
        dsimp only at h
        exact ih _ _ _ _ _ _ hacc h


theorem shape_getElem (a c i : Nat) :
    (List.replicate a 'b' ++ '\n' :: '\n' :: List.replicate c 'b')[i]? =
      if i < a then some 'b' else if i = a then some '\n'
      else if i = a + 1 then some '\n'
      else if i < a + 2 + c then some 'b' else none := by
  by_cases h1 : i < a
  · rw [List.getElem?_append_left (by rw [List.length_replicate]; omega),
      List.getElem?_replicate, if_pos h1, if_pos h1]
  · rw [List.getElem?_append_right (by rw [List.length_replicate]; omega),
      List.length_replicate, if_neg h1]
    obtain ⟨m, rfl⟩ : ∃ m, i = a + m := ⟨i - a, by omega⟩
    rw [show a + m - a = m from by omega]
    match m with
    | 0 =>
      rw [List.getElem?_cons_zero, if_pos (by omega)]
    | 1 =>
      rw [List.getElem?_cons_succ, List.getElem?_cons_zero,
        if_neg (by omega), if_pos (by omega)]
    | (k + 2) =>
      rw [List.getElem?_cons_succ, List.getElem?_cons_succ,
        List.getElem?_replicate,
        if_neg (show ¬ (a + (k + 2) = a) from by omega),
        if_neg (show ¬ (a + (k + 2) = a + 1) from by omega)]
      by_cases h4 : k < c
      · rw [if_pos h4, if_pos (show a + (k + 2) < a + 2 + c from by omega)]
      · rw [if_neg h4,
          if_neg (show ¬ (a + (k + 2) < a + 2 + c) from by omega)]

theorem rfind_shape_nlnl (a c e : Nat) (h1 : a + 2 ≤ e) :
    rfind (List.replicate a 'b' ++ '\n' :: '\n' :: List.replicate c 'b')
      ['\n', '\n'] e = a := by
  apply rfind_eq_of_isLastMatch (i := a)
  have hd : (List.replicate a 'b' ++ '\n' :: '\n' ::
      List.replicate c 'b').drop a = '\n' :: '\n' :: List.replicate c 'b' := by
    have h := List.drop_left (List.replicate a 'b')
      ('\n' :: '\n' :: List.replicate c 'b')
    rwa [List.length_replicate] at h
  refine ⟨?_, by norm_num; omega, ?_⟩
  · unfold matchesAt
    rw [hd]
    rfl
  · intro j hj haj hje
    by_contra hm
    rw [Bool.not_eq_false] at hm
    obtain ⟨hc1, hc2⟩ := matchesAt_pair hm
    rw [shape_getElem] at hc1 hc2
    rw [if_neg (by omega), if_neg (by omega)] at hc1
    by_cases hja1 : j = a + 1
    · rw [if_neg (by omega), if_neg (by omega), if_neg (by omega)] at hc2
      by_cases h2c : j + 1 < a + 2 + c
      · rw [if_pos h2c] at hc2
        exact absurd hc2 (by decide)
      · rw [if_neg h2c] at hc2
        cases hc2
    · rw [if_neg hja1] at hc1
      by_cases hjc : j < a + 2 + c
      · rw [if_pos hjc] at hc1
        exact absurd hc1 (by decide)
      · rw [if_neg hjc] at hc1
        cases hc1

theorem rfind_shape_none {d : Char} {cs : List Char} (hb : d ≠ 'b')
    (hn : d ≠ '\n') (a c e : Nat) :
    rfind (List.replicate a 'b' ++ '\n' :: '\n' :: List.replicate c 'b')
      (d :: cs) e = -1 := by
  apply rfind_eq_neg_one
  intro j hj hje
  by_contra hm
  rw [Bool.not_eq_false] at hm
  have hc := matchesAt_head hm
  rw [shape_getElem] at hc
  by_cases h1 : j < a
  · rw [if_pos h1] at hc
    exact hb (Option.some.inj hc).symm
  · rw [if_neg h1] at hc
    by_cases h2 : j = a
    · rw [if_pos h2] at hc
      exact hn (Option.some.inj hc).symm
    · rw [if_neg h2] at hc
      by_cases h3 : j = a + 1
      · rw [if_pos h3] at hc
        exact hn (Option.some.inj hc).symm
      · rw [if_neg h3] at hc
        by_cases h4 : j < a + 2 + c
        · rw [if_pos h4] at hc
          exact hb (Option.some.inj hc).symm
        · rw [if_neg h4] at hc
          cases hc

theorem rfind_rep_b_none {d : Char} {cs : List Char} (hb : d ≠ 'b')
    (n e : Nat) :
    rfind (List.replicate n 'b') (d :: cs) e = -1 := by
  apply rfind_eq_neg_one
  intro j hj hje
  by_contra hm
  rw [Bool.not_eq_false] at hm
  have hc := matchesAt_head hm
  rw [List.getElem?_replicate] at hc
  by_cases h1 : j < n
  · rw [if_pos h1] at hc
    exact hb (Option.some.inj hc).symm
  · rw [if_neg h1] at hc
    cases hc

theorem sentenceBest_rep (n e : Nat) :
    sentenceBest (List.replicate n 'b') e = -1 := by
  unfold sentenceBest
  rw [rfind_rep_b_none (by decide) n e, rfind_rep_b_none (by decide) n e,
    rfind_rep_b_none (by decide) n e]
  decide

theorem sentenceBest_shape (a c e : Nat) :
    sentenceBest (List.replicate a 'b' ++ '\n' :: '\n' ::
      List.replicate c 'b') e = -1 := by
  unfold sentenceBest
  rw [rfind_shape_none (by decide) (by decide) a c e,
    rfind_shape_none (by decide) (by decide) a c e,
    rfind_shape_none (by decide) (by decide) a c e]
  decide

theorem fbp_rep {n : Nat} (h : 2000 < n) :
    findBreakPoint (List.replicate n 'b') 2000 = 2000 := by
  unfold findBreakPoint
  rw [if_neg (by rw [List.length_replicate]; omega)]
  dsimp only
  rw [rfind_rep_b_none (d := '\n') (by decide) n 2000, if_neg (by decide),
    sentenceBest_rep n 2000, if_neg (by decide),
    rfind_rep_b_none (d := ' ') (by decide) n 2000, if_neg (by decide)]

theorem shape_length (a c : Nat) :
    (List.replicate a 'b' ++ '\n' :: '\n' ::
      List.replicate c 'b').length = a + 2 + c := by
  rw [List.length_append, List.length_cons, List.length_cons,
    List.length_replicate, List.length_replicate]
  omega

theorem fbp_shape (a c : Nat) (h1 : a + 2 ≤ 2000) (h2 : 2000 < a + 2 + c)
    (h3 : 10 * (a : Int) ≤ 14000) :
    findBreakPoint (List.replicate a 'b' ++ '\n' :: '\n' ::
      List.replicate c 'b') 2000 = 2000 := by
  have hl := shape_length a c
  unfold findBreakPoint
  rw [if_neg (by omega)]
  dsimp only
  rw [rfind_shape_nlnl a c 2000 h1, if_neg (by push_cast; omega),
    sentenceBest_shape a c 2000, if_neg (by decide),
    rfind_shape_none (d := ' ') (by decide) (by decide) a c 2000,
    if_neg (by decide)]

theorem fbp_shape_para (a c : Nat) (h1 : a + 2 ≤ 2000)
    (h2 : 2000 < a + 2 + c) (h3 : 14000 < 10 * (a : Int)) :
    findBreakPoint (List.replicate a 'b' ++ '\n' :: '\n' ::
      List.replicate c 'b') 2000 = a := by
  have hl := shape_length a c
  unfold findBreakPoint
  rw [if_neg (by omega)]
  dsimp only
  rw [rfind_shape_nlnl a c 2000 h1, if_pos (by push_cast; omega)]
  omega

theorem take_rep_b (n k : Nat) (h : k ≤ n) :
    (List.replicate n 'b').take k = List.replicate k 'b' := by
  rw [List.take_replicate, show k ⊓ n = k from by omega]

theorem drop_rep_b (n k : Nat) :
    (List.replicate n 'b').drop k = List.replicate (n - k) 'b' := by
  rw [List.drop_replicate]

theorem take_shape_mid (a c m : Nat) :
    (List.replicate a 'b' ++ '\n' :: '\n' :: List.replicate c 'b').take
      (a + 2 + m) =
      List.replicate a 'b' ++ '\n' :: '\n' :: List.replicate (m ⊓ c) 'b' := by
  rw [List.take_append_eq_append_take, List.length_replicate,
    List.take_of_length_le (by rw [List.length_replicate]; omega),
    show a + 2 + m - a = m + 2 from by omega,
    show (('\n' :: '\n' :: List.replicate c 'b').take (m + 2)) =
      '\n' :: '\n' :: (List.replicate c 'b').take m from rfl,
    List.take_replicate]

theorem take_shape_left (a c : Nat) :
    (List.replicate a 'b' ++ '\n' :: '\n' :: List.replicate c 'b').take a =
      List.replicate a 'b' :=
  List.take_left' (List.length_replicate a 'b')

theorem drop_shape_right (a c m : Nat) :
    (List.replicate a 'b' ++ '\n' :: '\n' :: List.replicate c 'b').drop
      (a + 2 + m) = List.replicate (c - m) 'b' := by
  rw [List.drop_append_eq_append_drop,
    List.drop_eq_nil_of_le (by rw [List.length_replicate]; omega),
    List.length_replicate,
    show a + 2 + m - a = m + 2 from by omega,
    show (('\n' :: '\n' :: List.replicate c 'b').drop (m + 2)) =
      (List.replicate c 'b').drop m from rfl,
    List.drop_replicate, List.nil_append]

theorem drop_shape_left (a c k : Nat) (h : k ≤ a) :
    (List.replicate a 'b' ++ '\n' :: '\n' :: List.replicate c 'b').drop k =
      List.replicate (a - k) 'b' ++ '\n' :: '\n' :: List.replicate c 'b' := by
  rw [List.drop_append_eq_append_drop, List.length_replicate,
    List.drop_replicate, show k - a = 0 from by omega, List.drop_zero]

theorem dropWhile_head_false {p : Char → Bool} {l : List Char} {x : Char}
    (hh : l.head? = some x) (hx : p x = false) : l.dropWhile p = l := by
  cases l with
  | nil => cases hh
  | cons y ys =>
    rw [List.head?_cons] at hh
    injection hh with hh
    subst hh
    rw [List.dropWhile_cons, hx, if_neg (by decide)]

theorem pyStrip_eq_self {l : List Char} {x y : Char}
    (hh : l.head? = some x) (hx : isPyWs x = false)
    (hl : l.getLast? = some y) (hy : isPyWs y = false) : pyStrip l = l := by
  unfold pyStrip
  rw [dropWhile_head_false hh hx,
    dropWhile_head_false ((List.head?_reverse l).trans hl) hy,
    List.reverse_reverse]

theorem head?_rep_b (n : Nat) :
    (List.replicate (n + 1) 'b').head? = some 'b' := by
  rw [List.replicate_succ, List.head?_cons]

theorem getLast?_rep_b (n : Nat) :
    (List.replicate (n + 1) 'b').getLast? = some 'b' := by
  rw [List.replicate_succ', List.getLast?_concat]

theorem pyStrip_rep_b (n : Nat) (h : 0 < n) :
    pyStrip (List.replicate n 'b') = List.replicate n 'b' := by
  obtain ⟨m, rfl⟩ : ∃ m, n = m + 1 := ⟨n - 1, by omega⟩
  exact pyStrip_eq_self (head?_rep_b m) (by decide) (getLast?_rep_b m)
    (by decide)

theorem head?_shape (a c : Nat) (h : 0 < a) :
    (List.replicate a 'b' ++ '\n' :: '\n' ::
      List.replicate c 'b').head? = some 'b' := by
  obtain ⟨m, rfl⟩ : ∃ m, a = m + 1 := ⟨a - 1, by omega⟩
  rw [List.replicate_succ, List.cons_append, List.head?_cons]

theorem getLast?_shape (a c : Nat) (h : 0 < c) :
    (List.replicate a 'b' ++ '\n' :: '\n' ::
      List.replicate c 'b').getLast? = some 'b' := by
  obtain ⟨m, rfl⟩ : ∃ m, c = m + 1 := ⟨c - 1, by omega⟩
  rw [List.replicate_succ',
    show ('\n' :: '\n' :: (List.replicate m 'b' ++ ['b'])) =
      ('\n' :: '\n' :: List.replicate m 'b') ++ ['b'] from rfl,
    ← List.append_assoc, List.getLast?_concat]

theorem pyStrip_shape (a c : Nat) (ha : 0 < a) (hc : 0 < c) :
    pyStrip (List.replicate a 'b' ++ '\n' :: '\n' ::
      List.replicate c 'b') =
      List.replicate a 'b' ++ '\n' :: '\n' :: List.replicate c 'b' :=
  pyStrip_eq_self (head?_shape a c ha) (by decide) (getLast?_shape a c hc)
    (by decide)

theorem isEmpty_rep_b (n : Nat) (h : 0 < n) :
    (List.replicate n 'b').isEmpty = false := by
  obtain ⟨m, rfl⟩ : ∃ m, n = m + 1 := ⟨n - 1, by omega⟩
  rw [List.replicate_succ]
  rfl

theorem isEmpty_shape (a c : Nat) (h : 0 < a) :
    (List.replicate a 'b' ++ '\n' :: '\n' ::
      List.replicate c 'b').isEmpty = false := by
  obtain ⟨m, rfl⟩ : ∃ m, a = m + 1 := ⟨a - 1, by omega⟩
  rw [List.replicate_succ, List.cons_append]
  rfl

theorem step_consume_empty (n : Nat) (p : PageIn) (rest : List PageIn)
    (pgs : List Nat) (idx : Nat) (acc : List DocumentChunk) :
    chunkGo 0 2000 300 (n + 1) (p :: rest) [] pgs idx acc =
      chunkGo 0 2000 300 n rest p.text (pgs ++ [p.page_number]) idx acc := by
  conv_lhs => rw [chunkGo.eq_def]
  dsimp only
  rw [if_neg (by decide), if_pos (show List.isEmpty ([] : List Char) = true
    from rfl)]

theorem step_consume_rep (n a : Nat) (h0 : 0 < a) (ha : a < 2000)
    (p : PageIn) (rest : List PageIn) (pgs : List Nat) (idx : Nat)
    (acc : List DocumentChunk) :
    chunkGo 0 2000 300 (n + 1) (p :: rest) (List.replicate a 'b') pgs idx
      acc =
      chunkGo 0 2000 300 n rest
        (List.replicate a 'b' ++ '\n' :: '\n' :: p.text)
        (pgs ++ [p.page_number]) idx acc := by
  conv_lhs => rw [chunkGo.eq_def]
  dsimp only
  rw [if_neg (by rw [List.length_replicate]; omega),
    isEmpty_rep_b a h0, if_neg Bool.false_ne_true]

theorem step_final (n : Nat) (buf : List Char) (pgs : List Nat) (idx : Nat)
    (acc : List DocumentChunk) (hlen : buf.length < 2000) :
    chunkGo 0 2000 300 (n + 1) [] buf pgs idx acc =
      some (if (pyStrip buf).isEmpty then acc
        else acc ++ [⟨0, idx, pgs, pyStrip buf, (pyStrip buf).length⟩]) := by
  conv_lhs => rw [chunkGo.eq_def]
  dsimp only
  rw [if_neg (by omega)]

theorem step_cut_rep2500 (n : Nat) (pages : List PageIn) (pgs : List Nat)
    (idx : Nat) (acc : List DocumentChunk) :
    chunkGo 0 2000 300 (n + 1) pages (List.replicate 2500 'b') pgs idx
      acc =
      chunkGo 0 2000 300 n pages (List.replicate 800 'b')
        (collapseLast pgs) (idx + 1)
        (acc ++ [⟨0, idx, pgs, List.replicate 2000 'b', 2000⟩]) := by
  conv_lhs => rw [chunkGo.eq_def]
  dsimp only
  rw [if_pos (by rw [List.length_replicate]; omega),
    fbp_rep (by omega),
    take_rep_b 2500 2000 (by omega),
    pyStrip_rep_b 2000 (by omega),
    isEmpty_rep_b 2000 (by omega),
    if_neg Bool.false_ne_true, if_neg Bool.false_ne_true,
    List.length_replicate,
    show (2000 : Nat) - 300 = 1700 from rfl,
    drop_rep_b,
    show (2500 : Nat) - 1700 = 800 from rfl]

theorem step_cut_shape800 (n : Nat) (pages : List PageIn) (pgs : List Nat)
    (idx : Nat) (acc : List DocumentChunk) :
    chunkGo 0 2000 300 (n + 1) pages
      (List.replicate 800 'b' ++ '\n' :: '\n' :: List.replicate 2500 'b')
      pgs idx acc =
      chunkGo 0 2000 300 n pages (List.replicate 1602 'b')
        (collapseLast pgs) (idx + 1)
        (acc ++ [⟨0, idx, pgs, List.replicate 800 'b' ++ '\n' :: '\n' ::
          List.replicate 1198 'b', 2000⟩]) := by
  have ht := take_shape_mid 800 2500 1198
  rw [show (800 : Nat) + 2 + 1198 = 2000 from rfl,
    show (1198 : Nat) ⊓ 2500 = 1198 from by omega] at ht
  have hd := drop_shape_right 800 2500 898
  rw [show (800 : Nat) + 2 + 898 = 1700 from rfl,
    show (2500 : Nat) - 898 = 1602 from rfl] at hd
  conv_lhs => rw [chunkGo.eq_def]
  dsimp only
  rw [if_pos (by rw [shape_length]; omega),
    fbp_shape 800 2500 (by omega) (by omega) (by norm_num),
    ht, pyStrip_shape 800 1198 (by omega) (by omega),
    isEmpty_shape 800 1198 (by omega),
    if_neg Bool.false_ne_true, if_neg Bool.false_ne_true,
    shape_length 800 1198,
    show (800 : Nat) + 2 + 1198 = 2000 from rfl,
    show (2000 : Nat) - 300 = 1700 from rfl,
    hd]

theorem step_cut_para1602 (n : Nat) (pages : List PageIn) (pgs : List Nat)
    (idx : Nat) (acc : List DocumentChunk) :
    chunkGo 0 2000 300 (n + 1) pages
      (List.replicate 1602 'b' ++ '\n' :: '\n' :: List.replicate 2500 'b')
      pgs idx acc =
      chunkGo 0 2000 300 n pages
        (List.replicate 300 'b' ++ '\n' :: '\n' :: List.replicate 2500 'b')
        (collapseLast pgs) (idx + 1)
        (acc ++ [⟨0, idx, pgs, List.replicate 1602 'b', 1602⟩]) := by
  have hd := drop_shape_left 1602 2500 1302 (by omega)
  rw [show (1602 : Nat) - 1302 = 300 from rfl] at hd
  conv_lhs => rw [chunkGo.eq_def]
  dsimp only
  rw [if_pos (by rw [shape_length]; omega),
    fbp_shape_para 1602 2500 (by omega) (by omega) (by norm_num),
    take_shape_left 1602 2500,
    pyStrip_rep_b 1602 (by omega),
    isEmpty_rep_b 1602 (by omega),
    if_neg Bool.false_ne_true, if_neg Bool.false_ne_true,
    List.length_replicate,
    show (1602 : Nat) - 300 = 1302 from rfl,
    hd]

theorem step_cut_shape300 (n : Nat) (pages : List PageIn) (pgs : List Nat)
    (idx : Nat) (acc : List DocumentChunk) :
    chunkGo 0 2000 300 (n + 1) pages
      (List.replicate 300 'b' ++ '\n' :: '\n' :: List.replicate 2500 'b')
      pgs idx acc =
      chunkGo 0 2000 300 n pages (List.replicate 1102 'b')
        (collapseLast pgs) (idx + 1)
        (acc ++ [⟨0, idx, pgs, List.replicate 300 'b' ++ '\n' :: '\n' ::
          List.replicate 1698 'b', 2000⟩]) := by
  have ht := take_shape_mid 300 2500 1698
  rw [show (300 : Nat) + 2 + 1698 = 2000 from rfl,
    show (1698 : Nat) ⊓ 2500 = 1698 from by omega] at ht
  have hd := drop_shape_right 300 2500 1398
  rw [show (300 : Nat) + 2 + 1398 = 1700 from rfl,
    show (2500 : Nat) - 1398 = 1102 from rfl] at hd
  conv_lhs => rw [chunkGo.eq_def]
  dsimp only
  rw [if_pos (by rw [shape_length]; omega),
    fbp_shape 300 2500 (by omega) (by omega) (by norm_num),
    ht, pyStrip_shape 300 1698 (by omega) (by omega),
    isEmpty_shape 300 1698 (by omega),
    if_neg Bool.false_ne_true, if_neg Bool.false_ne_true,
    shape_length 300 1698,
    show (300 : Nat) + 2 + 1698 = 2000 from rfl,
    show (2000 : Nat) - 300 = 1700 from rfl,
    hd]

theorem C9_good_run :
    chunk_text 0 2000 300 10 goodPages9 =
      some [goodChunk1, goodChunk2, goodChunk3, goodChunk4, goodChunk5] := by
  unfold chunk_text goodPages9 goodText2500
  rw [show (10 : Nat) = 9 + 1 from rfl, step_consume_empty]
  dsimp only
  rw [show (9 : Nat) = 8 + 1 from rfl, step_cut_rep2500]
  rw [show (8 : Nat) = 7 + 1 from rfl,
    step_consume_rep 7 800 (by omega) (by omega)]
  dsimp only
  rw [show (7 : Nat) = 6 + 1 from rfl, step_cut_shape800]
  rw [show (6 : Nat) = 5 + 1 from rfl,
    step_consume_rep 5 1602 (by omega) (by omega)]
  dsimp only
  rw [show (5 : Nat) = 4 + 1 from rfl, step_cut_para1602]
  rw [show (4 : Nat) = 3 + 1 from rfl, step_cut_shape300]
  rw [show (3 : Nat) = 2 + 1 from rfl,
    step_final 2 (List.replicate 1102 'b') _ _ _
      (by rw [List.length_replicate]; omega)]
  rw [pyStrip_rep_b 1102 (by omega), isEmpty_rep_b 1102 (by omega),
    if_neg Bool.false_ne_true, List.length_replicate]
  rfl

/-- C9 (amended): the claim's \"for every page content\" is false — see the
counterexample, where the run never terminates.  What holds is: (1) every
terminating `chunk_text` run with `target_size = 2000`, `overlap = 300`
produces chunks whose `chunk_size` is ≤ 2000 for every chunk except
possibly the final one; and (2) for three uniform 2500-character pages the
run does terminate, producing exactly five chunks — at least 3 — whose
sizes (2000, 2000, 1602, 2000, 1102) are all ≤ 2000, final chunk
included. -/
theorem C9_amended (pages : List PageIn) (fuel : Nat)
    (res : List DocumentChunk)
    (h : chunk_text 0 2000 300 fuel pages = some res) :
    (∀ c ∈ res.dropLast, c.chunk_size ≤ 2000) ∧
      chunk_text 0 2000 300 10 goodPages9 =
        some [goodChunk1, goodChunk2, goodChunk3, goodChunk4, goodChunk5] ∧
      3 ≤ [goodChunk1, goodChunk2, goodChunk3, goodChunk4,
        goodChunk5].length ∧
      ∀ c ∈ [goodChunk1, goodChunk2, goodChunk3, goodChunk4, goodChunk5],
        c.chunk_size ≤ 2000 := by
  refine ⟨?_, C9_good_run, by decide, by decide⟩
  exact chunkGo_sizes 0 2000 300 fuel pages [] [] 0 [] res (by simp) h

/-- Witness for `C9_amended`: the empty page list terminates with fuel 1
and produces no chunk, so the non-final-size bound holds vacuously. -/
theorem C9_witness :
    chunk_text 0 2000 300 1 [] = some [] ∧
      ∀ c ∈ ([] : List DocumentChunk).dropLast, c.chunk_size ≤ 2000 :=
  ⟨rfl, (C9_amended [] 1 [] rfl).1⟩

end DocSearch
